import Mathlib

/-!
# Verification of the Portfolio Analytics Engine

Shallow embedding of the analytics core of the personal-finance-agent
repository (`src/app.py`, `src/run_agent.py`): the allocation-drift
detector (`generate_rebalance_insights`), the market-dip scout
(`check_market_dips`), the time-series performance calculator
(`get_asset_performance`) and the insight aggregator (`get_llm_summary`).

Modelling conventions:
* Python/pandas floating-point values are modelled by `FVal`: an exact
  rational together with the non-finite values `nan`, `pinf`, `ninf`,
  with IEEE-style propagation (0/0 = NaN, x/0 = ±inf for x ≠ 0,
  comparisons with NaN are false).  Rounding error is not modelled; the
  program's comparisons and divisions are exact at the rationals that
  occur in the claims.
* pandas dataframes become lists of records; `groupby ... sum` becomes a
  filtered fold; a left merge with `fillna(0)` becomes a lookup whose
  missing (and NaN) results are replaced by 0.
* Python `dict(zip(keys, vals))` built from column pairs is modelled by
  `dictGet`, in which a later binding for the same key overwrites an
  earlier one (last binding wins).
* Message strings rendered with `f"...{x:.1f}..."` are modelled
  structurally: an insight record carries the fields the message
  interpolates (kind, category, percentages, drift magnitude,
  direction), since the decimal formatting itself is presentation.
* Exceptions become `Except Unit`; a `try ... except: return []` around
  a whole loop becomes a `match` on the loop's `Except` result.
-/

/-- IEEE-style scalar: an exact rational, or NaN / +inf / -inf.
Models the values flowing through the pandas column arithmetic. -/
inductive FVal where
  | num : Rat → FVal
  | nan : FVal
  | pinf : FVal
  | ninf : FVal
deriving DecidableEq, Repr

namespace FVal

/-- Float subtraction: NaN propagates; inf − finite = same inf;
equal-signed infinities give NaN. -/
def fsub : FVal → FVal → FVal
  | num a, num b => num (a - b)
  | nan, _ => nan
  | _, nan => nan
  | pinf, num _ => pinf
  | num _, pinf => ninf
  | ninf, num _ => ninf
  | num _, ninf => pinf
  | pinf, pinf => nan
  | pinf, ninf => pinf
  | ninf, pinf => ninf
  | ninf, ninf => nan

/-- Float multiplication with sign handling for infinities;
inf * 0 = NaN. -/
def fmul : FVal → FVal → FVal
  | num a, num b => num (a * b)
  | nan, _ => nan
  | _, nan => nan
  | pinf, num b => if 0 < b then pinf else if b < 0 then ninf else nan
  | ninf, num b => if 0 < b then ninf else if b < 0 then pinf else nan
  | num a, pinf => if 0 < a then pinf else if a < 0 then ninf else nan
  | num a, ninf => if 0 < a then ninf else if a < 0 then pinf else nan
  | pinf, pinf => pinf
  | pinf, ninf => ninf
  | ninf, pinf => ninf
  | ninf, ninf => pinf

/-- Float division: finite / 0 follows IEEE (0/0 = NaN, ±x/0 = ±inf);
inf / finite keeps the sign; inf / inf = NaN. -/
def fdiv : FVal → FVal → FVal
  | num a, num b =>
      if b = 0 then (if a = 0 then nan else if 0 < a then pinf else ninf)
      else num (a / b)
  | nan, _ => nan
  | _, nan => nan
  | pinf, num b => if b < 0 then ninf else pinf
  | ninf, num b => if b < 0 then pinf else ninf
  | num _, pinf => num 0
  | num _, ninf => num 0
  | pinf, pinf => nan
  | pinf, ninf => nan
  | ninf, pinf => nan
  | ninf, ninf => nan

/-- Float absolute value; `abs NaN = NaN`, `abs (±inf) = +inf`. -/
def fabs : FVal → FVal
  | num a => num |a|
  | nan => nan
  | pinf => pinf
  | ninf => pinf

/-- Float strict greater-than; any comparison involving NaN is false. -/
def fgt : FVal → FVal → Bool
  | num a, num b => decide (b < a)
  | nan, _ => false
  | _, nan => false
  | pinf, num _ => true
  | num _, pinf => false
  | ninf, num _ => false
  | num _, ninf => true
  | pinf, pinf => false
  | pinf, ninf => true
  | ninf, pinf => false
  | ninf, ninf => false

/-- pandas `fillna(0)` on a scalar: NaN becomes 0, every other value
(including ±inf) is kept. -/
def fillnaZero (v : FVal) : FVal := if v = nan then num 0 else v

end FVal

/-! ## Allocation Drift Detector (`generate_rebalance_insights`)

`src/run_agent.py` lines 199–231 and `src/app.py` lines 279–310. -/

/-- One row of the (already aggregated) Holdings table: the output of
`load_portfolio` — asset, category, numeric current value. -/
structure HoldingRow where
  asset : String
  category : String
  value : Rat
deriving DecidableEq, Repr

/-- One row of the AllocationRules table.  `none` in a numeric field
models a malformed cell whose column arithmetic raises (pandas
`TypeError` on `float - str`). -/
structure RuleRow where
  category : String
  target : Option Rat
  threshold : Option Rat
deriving DecidableEq, Repr

/-- `portfolio_df.groupby('Category')['Current_Value'].sum()` evaluated
at one category: the sum of values of the holdings in that category. -/
def sumCategory (portfolio : List HoldingRow) (cat : String) : Rat :=
  (portfolio.filter (fun h => h.category = cat)).foldl (fun a h => a + h.value) 0

/-- `total_value = category_df['Current_Value'].sum()`: the sum of all
holdings' values (summing per-category sums equals summing all rows). -/
def totalValue (portfolio : List HoldingRow) : Rat :=
  portfolio.foldl (fun a h => a + h.value) 0

/-- `(category_df['Current_Value'] / total_value) * 100` for a category
present in Holdings, in float semantics (0/0 gives NaN, x/0 gives ±inf). -/
def currentPctRaw (portfolio : List HoldingRow) (cat : String) : FVal :=
  FVal.fmul (FVal.fdiv (FVal.num (sumCategory portfolio cat))
                       (FVal.num (totalValue portfolio)))
            (FVal.num 100)

/-- The `Current_Percentage` of a rule's category after
`pd.merge(rules_df, category_df, how='left')` and `fillna(0)`:
a category absent from Holdings merges as NaN and is filled with 0;
note `fillna(0)` also replaces a NaN produced by a 0/0 division. -/
def mergedPct (portfolio : List HoldingRow) (cat : String) : FVal :=
  FVal.fillnaZero
    (if portfolio.any (fun h => h.category = cat)
     then currentPctRaw portfolio cat
     else FVal.nan)

/-- An insight produced for one rule, carrying the fields the message
strings interpolate.  `alert` corresponds to the `ALERT:` message
(category, current %, target %, threshold, drift magnitude, and
direction — `over = true` renders "over-allocated", else
"under-allocated"); `ok` to the `OK:` message. -/
inductive RuleInsight where
  | alert (category : String) (currentPct : FVal) (target threshold : Rat)
          (driftMag : FVal) (over : Bool)
  | ok (category : String) (currentPct : FVal)
deriving DecidableEq, Repr

/-- Whether an insight is an ALERT. -/
def isAlertInsight : RuleInsight → Bool
  | .alert _ _ _ _ _ _ => true
  | .ok _ _ => false

/-- The loop body of `generate_rebalance_insights` for one merged rule
row: `Drift = Current_Percentage - Target_Percentage`,
`Is_Alert = abs(Drift) > Rebalance_Threshold`, direction `Drift > 0`.
A malformed numeric field makes the column arithmetic raise, modelled
as `Except.error`. -/
def ruleInsight (portfolio : List HoldingRow) (r : RuleRow) :
    Except Unit RuleInsight :=
  match r.target, r.threshold with
  | some t, some th =>
      let cur := mergedPct portfolio r.category
      let drift := FVal.fsub cur (FVal.num t)
      if FVal.fgt (FVal.fabs drift) (FVal.num th)
      then .ok (.alert r.category cur t th (FVal.fabs drift)
                  (FVal.fgt drift (FVal.num 0)))
      else .ok (.ok r.category cur)
  | _, _ => .error ()

/-- The rule loop: compute each rule's insight in order, aborting with
the exception of the first failing computation (in pandas the failing
column arithmetic precedes the loop, so one bad field aborts them all). -/
def collectInsights (portfolio : List HoldingRow) :
    List RuleRow → Except Unit (List RuleInsight)
  | [] => .ok []
  | r :: rs =>
      match ruleInsight portfolio r with
      | .error e => .error e
      | .ok i =>
          match collectInsights portfolio rs with
          | .error e => .error e
          | .ok is => .ok (i :: is)

/-- The sequence of insights `src/app.py`'s
`generate_rebalance_insights` renders to the dashboard (one
`st.error`/`st.success` per rule, in rule order).  The single
`try/except` around the whole computation means any malformed field
aborts everything (the failing column arithmetic happens before the
loop, so nothing is shown). -/
def rebalanceShown (portfolio : List HoldingRow) (rules : List RuleRow) :
    List RuleInsight :=
  if portfolio.isEmpty || rules.isEmpty then []
  else
    match collectInsights portfolio rules with
    | .ok insights => insights
    | .error _ => []

/-- The insight list returned by `generate_rebalance_insights` (both
`src/run_agent.py` and `src/app.py`): the empty-input guard returns
`[]`; otherwise only the rules with `Is_Alert` append their message
(`insight_messages.append` appears only in the alert branch); the
whole-function `except` returns `[]`. -/
def generate_rebalance_insights (portfolio : List HoldingRow)
    (rules : List RuleRow) : List RuleInsight :=
  if portfolio.isEmpty || rules.isEmpty then []
  else
    match collectInsights portfolio rules with
    | .ok insights => insights.filter isAlertInsight
    | .error _ => []

/-! ## Market Dip Scout (`check_market_dips`)

`src/run_agent.py` lines 233–281 (the version with both `dropna`
guards; `src/app.py` lines 312–349 differs only in guarding on the
close column alone). -/

/-- One row of a fetched price history as the dip scout sees it:
the `High` and `Close` columns, `none` modelling a missing (NaN) cell
dropped by `dropna()`.  List order is chronological. -/
structure DipPoint where
  high : Option Rat
  close : Option Rat
deriving DecidableEq, Repr

/-- One row of the Watchlist table. -/
structure WatchRow where
  ticker : String
  assetName : String
  threshold : Rat
deriving DecidableEq, Repr

/-- `percent_from_high = ((current_price - high_52_week) / high_52_week) * 100`
in float semantics. -/
def percentFromHigh (currentPrice high52 : Rat) : FVal :=
  FVal.fmul (FVal.fdiv (FVal.fsub (FVal.num currentPrice) (FVal.num high52))
                       (FVal.num high52))
            (FVal.num 100)

/-- What the scout does with one watchlist entry: `skipped` when the
series is empty or a cleaned column is empty (the `continue` branches,
no insight); `opportunity` for the appended OPPORTUNITY message (asset
name, ticker, absolute percent below high, current price, high,
threshold); `ok` for the within-threshold branch (printed / rendered,
carrying the absolute percent the dashboard shows). -/
inductive DipOutcome where
  | skipped
  | opportunity (assetName ticker : String) (pctBelow : FVal)
                (currentPrice high52 threshold : Rat)
  | ok (assetName : String) (pctBelow : FVal)
deriving DecidableEq, Repr

/-- The per-entry body of `check_market_dips`:
`clean_high = data['High'].dropna()`, `clean_close = data['Close'].dropna()`,
`high_52_week = clean_high.max()`, `current_price = clean_close.iloc[-1]`,
then the `abs(percent_from_high) > threshold` test. -/
def dipOutcome (row : WatchRow) (data : List DipPoint) : DipOutcome :=
  if data.isEmpty then .skipped
  else
    let cleanHigh := data.filterMap (fun p => p.high)
    let cleanClose := data.filterMap (fun p => p.close)
    match cleanHigh.max?, cleanClose.getLast? with
    | some high52, some currentPrice =>
        let pct := percentFromHigh currentPrice high52
        if FVal.fgt (FVal.fabs pct) (FVal.num row.threshold)
        then .opportunity row.assetName row.ticker (FVal.fabs pct)
               currentPrice high52 row.threshold
        else .ok row.assetName (FVal.fabs pct)
    | _, _ => .skipped

/-- `check_market_dips` over a watchlist, the price history supplied by
a provider function (`yf.Ticker(...).history(...)`): one outcome per
entry in order.  The returned `insight_messages` list keeps only the
OPPORTUNITY outcomes. -/
def check_market_dips (watchlist : List WatchRow)
    (provider : String → List DipPoint) : List DipOutcome :=
  watchlist.map (fun row => dipOutcome row (provider row.ticker))

/-! ## Performance Calculator (`get_asset_performance`)

`src/app.py` lines 352–429. -/

/-- One point of the performance calculator's price history: the
(timezone-stripped) date as a day number and the close. -/
structure PricePoint where
  date : Int
  close : Rat
deriving DecidableEq, Repr

/-- One row of the Ticker mapping sheet. -/
structure TickerRow where
  asset : String
  ticker : String
deriving DecidableEq, Repr

/-- One output row of the performance table: the asset, the reported
ticker, and the six percentage columns (`none` renders as `"NA"`;
`some p` renders as `f"{p:+.2f}%"`). -/
structure PerfRow where
  asset : String
  ticker : String
  d1 : Option Rat
  w1 : Option Rat
  m1 : Option Rat
  m3 : Option Rat
  m6 : Option Rat
  y1 : Option Rat
deriving DecidableEq, Repr

/-- Python `str.strip()`: drop leading and trailing whitespace,
written structurally over the character list so that it evaluates. -/
def pyStrip (s : String) : String :=
  ⟨((s.data.dropWhile Char.isWhitespace).reverse.dropWhile
      Char.isWhitespace).reverse⟩

/-- Python `str.lower()`: lowercase each character. -/
def pyLower (s : String) : String := ⟨s.data.map Char.toLower⟩

/-- Lookup in the Python `dict(zip(...))` built from key/value pairs:
a later binding for the same key overwrites an earlier one, so lookup
returns the value of the LAST pair whose key matches. -/
def dictGet (pairs : List (String × String)) (k : String) : Option String :=
  (pairs.reverse.find? (fun p => p.1 = k)).map (fun p => p.2)

/-- First-occurrence deduplication, as `portfolio_df['Asset'].unique()`
(keeps the order of first appearance). -/
def uniqueAux (seen : List String) : List String → List String
  | [] => []
  | x :: xs =>
      if seen.contains x then uniqueAux seen xs
      else x :: uniqueAux (x :: seen) xs

/-- `Series.unique()` on a column given as a list. -/
def uniqueList (l : List String) : List String := uniqueAux [] l

/-- One lookback column: `target_date = current_date - days_back`;
`past_data = hist[hist.index <= target_date]`;
if non-empty the reference price is `past_data['Close'].iloc[-1]` (the
positionally last row of the filtered frame) and the column is
`((current_price - ref_price) / ref_price) * 100`; otherwise `"NA"`. -/
def lookbackCol (hist : List PricePoint) (currentDate : Int)
    (currentPrice : Rat) (daysBack : Int) : Option Rat :=
  let targetDate := currentDate - daysBack
  let pastData := hist.filter (fun p => p.date ≤ targetDate)
  match pastData.getLast? with
  | some refp => some ((currentPrice - refp.close) / refp.close * 100)
  | none => none

/-- The per-asset body of `get_asset_performance`'s loop:
resolve the ticker from the dict via the trimmed asset name; report
`"Not Found"` when the lookup misses or yields a falsy (empty) string;
fetch the 1-year history; require `not hist.empty and len(hist) > 1`,
else every column stays at its `"NA"` default; otherwise compute the
1-day change from the last two closes and the five date-indexed
lookback columns (7/30/90/180/365 days). -/
def assetRow (assetToTicker : List (String × String))
    (provider : String → List PricePoint) (asset : String) : PerfRow :=
  let cleanAsset := pyStrip asset
  let ticker? := dictGet assetToTicker cleanAsset
  let base : PerfRow :=
    { asset := asset
      ticker := match ticker? with
                | some t => if t = "" then "Not Found" else t
                | none => "Not Found"
      d1 := none, w1 := none, m1 := none
      m3 := none, m6 := none, y1 := none }
  match ticker? with
  | none => base
  | some ticker =>
      if ticker ≠ "" ∧ pyLower ticker ≠ "nan" ∧ ticker ≠ "" then
        let hist := provider ticker
        match hist.reverse with
        | lastP :: prevP :: _ =>
            let currentPrice := lastP.close
            let currentDate := lastP.date
            { base with
              d1 := some ((currentPrice - prevP.close) / prevP.close * 100)
              w1 := lookbackCol hist currentDate currentPrice 7
              m1 := lookbackCol hist currentDate currentPrice 30
              m3 := lookbackCol hist currentDate currentPrice 90
              m6 := lookbackCol hist currentDate currentPrice 180
              y1 := lookbackCol hist currentDate currentPrice 365 }
        | _ => base
      else base

/-- `get_asset_performance(portfolio_df, ticker_df)`: an empty Ticker
sheet returns an empty dataframe before any asset is visited;
otherwise one row per distinct asset of the portfolio, in
first-occurrence order, with the asset→ticker dict built from the
trimmed columns. -/
def get_asset_performance (portfolio : List HoldingRow)
    (tickerMap : List TickerRow)
    (provider : String → List PricePoint) : List PerfRow :=
  if tickerMap.isEmpty then []
  else
    let assetToTicker := tickerMap.map (fun r => (pyStrip r.asset, pyStrip r.ticker))
    let uniqueAssets := uniqueList (portfolio.map (fun h => h.asset))
    uniqueAssets.map (assetRow assetToTicker provider)

/-! ## Insight Aggregator (`get_llm_summary`)

`src/run_agent.py` lines 54–93 and `src/app.py` lines 186–218. -/

/-- `"\n".join(lines)`. -/
def joinLines : List String → String
  | [] => ""
  | [x] => x
  | x :: y :: xs => x ++ "\n" ++ joinLines (y :: xs)

/-- The `insights_text` handed to the summarization collaborator:
the three headed sections in the fixed order rebalance, market,
sentiment. -/
def insightsText (rebalance market news : List String) : String :=
  "Internal Portfolio Alerts:\n" ++ joinLines rebalance
    ++ "\n\nExternal Market Opportunities:\n" ++ joinLines market
    ++ "\n\nRecent News Sentiment:\n" ++ joinLines news

/-- The sentinel returned when there is nothing to summarize. -/
def sentinelNoInsights : String :=
  "No specific insights to summarize today. All systems normal."

/-- `get_llm_summary`: when all three insight lists are empty (Python
falsiness of empty lists) the sentinel is returned without consulting
the summarizer; otherwise the summarizer — abstracted as a function
from the prompt text to its reply — is applied to `insights_text` and
its response returned verbatim. -/
def get_llm_summary (summarize : String → String)
    (rebalance market news : List String) : String :=
  if rebalance.isEmpty && market.isEmpty && news.isEmpty
  then sentinelNoInsights
  else summarize (insightsText rebalance market news)

/-- `lines occursInOrderIn s`: the strings of `lines` occur inside `s`,
each complete and in the given order (possibly separated by other
text).  Used to state the aggregator's ordering contract. -/
def occursInOrderIn : List String → String → Prop
  | [], _ => True
  | l :: ls, s => ∃ pre post, s = pre ++ l ++ post ∧ occursInOrderIn ls post

/-- Spec-side description of one rule's drift insight (§4.1 steps 3–6 of
the spec, stated directly over exact rationals):
`current_percentage = 100 * current_value / total`,
`drift = current - target`, alert iff `|drift| > threshold`, direction
by the sign of `drift`.  Compared against the source-derived
`ruleInsight` in the drift-detector theorems. -/
def specDriftInsight (portfolio : List HoldingRow) (category : String)
    (target threshold : Rat) : RuleInsight :=
  let cur := 100 * sumCategory portfolio category / totalValue portfolio
  if |cur - target| > threshold
  then .alert category (FVal.num cur) target threshold (FVal.num |cur - target|)
         (decide (cur - target > 0))
  else .ok category (FVal.num cur)

/-! ## Concrete inputs used by witnesses and counterexamples -/

/-- Spec §8's end-to-end example portfolio: Equity 7000, Debt 3000. -/
def exPortfolio : List HoldingRow :=
  [⟨"Asset A", "Equity", 7000⟩, ⟨"Asset B", "Debt", 3000⟩]

/-- Two rules: Equity 60±5 (tripped at 70%), Debt 40±20 (within). -/
def exRules : List RuleRow :=
  [⟨"Equity", some 60, some 5⟩, ⟨"Debt", some 40, some 20⟩]

/-- A non-empty portfolio whose only holding has value 0 (total 0). -/
def zeroPortfolio : List HoldingRow := [⟨"Asset A", "Equity", 0⟩]

/-- A single rule with target 60 and threshold 5. -/
def zeroRules : List RuleRow := [⟨"Equity", some 60, some 5⟩]

/-- A rule list with a malformed middle rule between two good ones. -/
def badRules : List RuleRow :=
  [⟨"Equity", some 60, some 5⟩, ⟨"Debt", none, some 20⟩,
   ⟨"Gold", some 10, some 1⟩]

/-- A ticker map with two rows for the same asset string. -/
def dupTickerMap : List TickerRow := [⟨"A", "T1"⟩, ⟨"A", "T2"⟩]

/-- A portfolio holding just asset `A`. -/
def dupPortfolio : List HoldingRow := [⟨"A", "Equity", 1⟩]

/-- Mon–Fri price series: Monday..Friday (days 0–4) and the following
Monday (day 7), so the last point is a Monday and day 0 is the
previous Monday. -/
def mondayHist : List PricePoint :=
  [⟨0, 10⟩, ⟨1, 11⟩, ⟨2, 12⟩, ⟨3, 13⟩, ⟨4, 14⟩, ⟨7, 20⟩]

/-- Price-history provider serving `mondayHist` for ticker `FUND`. -/
def mondayProvider : String → List PricePoint :=
  fun t => if t = "FUND" then mondayHist else []

/-- Provider returning a single-point series for ticker `FUND`. -/
def onePointProvider : String → List PricePoint :=
  fun t => if t = "FUND" then [⟨0, 10⟩] else []

/-- A flat two-point series: high = close = 100 everywhere. -/
def flatSeries : List DipPoint := [⟨some 100, some 100⟩, ⟨some 100, some 100⟩]

/-- A one-point series with negative prices and `high ≥ close`. -/
def negSeries : List DipPoint := [⟨some (-10), some (-20)⟩]

/-! ## Helper lemmas -/

/-- Folding `+ value` over a list starting from `a` adds the sum of the
values. -/
theorem foldl_add_value (l : List HoldingRow) (a : Rat) :
    l.foldl (fun acc h => acc + h.value) a = a + (l.map (fun h => h.value)).sum := by
  induction l generalizing a with
  | nil => simp
  | cons h t ih => simp [List.foldl_cons, ih, add_assoc]

/-- `totalValue` is the sum of the value column. -/
theorem totalValue_eq_sum (p : List HoldingRow) :
    totalValue p = (p.map (fun h => h.value)).sum := by
  simp [totalValue, foldl_add_value]

/-- `sumCategory` is the sum of the value column of the matching rows. -/
theorem sumCategory_eq_sum (p : List HoldingRow) (cat : String) :
    sumCategory p cat
      = ((p.filter (fun h => h.category = cat)).map (fun h => h.value)).sum := by
  simp [sumCategory, foldl_add_value]

/-- If every holding's value is nonnegative and the total is zero, every
category's sum is zero. -/
theorem sumCategory_eq_zero_of_total_zero (p : List HoldingRow)
    (hpos : ∀ h ∈ p, 0 ≤ h.value) (htot : totalValue p = 0) (cat : String) :
    sumCategory p cat = 0 := by
  have hall : ∀ h ∈ p, h.value = 0 := by
    intro h hh
    have hsum : (p.map (fun h => h.value)).sum = 0 := by
      rw [← totalValue_eq_sum]; exact htot
    have hnn : ∀ x ∈ p.map (fun h => h.value), 0 ≤ x := by
      intro x hx
      obtain ⟨h', hh', rfl⟩ := List.mem_map.mp hx
      exact hpos h' hh'
    exact List.all_zero_of_le_zero_le_of_sum_eq_zero hnn hsum
      (List.mem_map.mpr ⟨h, hh, rfl⟩)
  rw [sumCategory_eq_sum]
  apply List.sum_eq_zero
  intro x hx
  obtain ⟨h', hh', rfl⟩ := List.mem_map.mp hx
  exact hall h' (List.mem_filter.mp hh').1

/-- A category absent from the portfolio sums to zero. -/
theorem sumCategory_eq_zero_of_absent (p : List HoldingRow) (cat : String)
    (habs : ¬ p.any (fun h => h.category = cat)) : sumCategory p cat = 0 := by
  rw [sumCategory_eq_sum]
  have : p.filter (fun h => h.category = cat) = [] := by
    rw [List.filter_eq_nil_iff]
    intro h hh hcat
    exact habs (List.any_eq_true.mpr ⟨h, hh, hcat⟩)
  simp [this]

/-- With a nonzero total, the merged-and-filled current percentage of
any category is the finite rational `sumCategory / total * 100`. -/
theorem mergedPct_of_total_ne_zero (p : List HoldingRow) (cat : String)
    (htot : totalValue p ≠ 0) :
    mergedPct p cat = FVal.num (sumCategory p cat / totalValue p * 100) := by
  unfold mergedPct currentPctRaw
  by_cases hpres : p.any (fun h => h.category = cat)
  · simp only [hpres, if_true]
    simp [FVal.fdiv, FVal.fmul, FVal.fillnaZero, htot]
  · simp only [hpres, if_false, Bool.false_eq_true]
    rw [sumCategory_eq_zero_of_absent p cat (by simp [hpres])]
    simp [FVal.fillnaZero]

/-- With a nonzero total and well-formed numeric fields, the code's
per-rule computation succeeds and agrees with the spec-side drift
insight. -/
theorem ruleInsight_eq_spec (p : List HoldingRow) (r : RuleRow)
    (t th : Rat) (ht : r.target = some t) (hth : r.threshold = some th)
    (htot : totalValue p ≠ 0) :
    ruleInsight p r = .ok (specDriftInsight p r.category t th) := by
  unfold ruleInsight specDriftInsight
  rw [ht, hth]
  rw [mergedPct_of_total_ne_zero p r.category htot]
  have hcur : sumCategory p r.category / totalValue p * 100
      = 100 * sumCategory p r.category / totalValue p := by ring
  simp only [FVal.fsub, FVal.fabs, FVal.fgt, hcur]
  by_cases halert :
      th < |100 * sumCategory p r.category / totalValue p - t|
  · simp [halert, gt_iff_lt, FVal.fgt]
  · simp [halert, gt_iff_lt]

/-- A rule list whose members all compute successfully collects into the
list of its per-rule insights. -/
theorem collectInsights_ok (p : List HoldingRow) (rules : List RuleRow)
    (f : RuleRow → RuleInsight)
    (h : ∀ r ∈ rules, ruleInsight p r = .ok (f r)) :
    collectInsights p rules = .ok (rules.map f) := by
  induction rules with
  | nil => rfl
  | cons r rs ih =>
      have hr : ruleInsight p r = .ok (f r) := h r (List.mem_cons_self r rs)
      have hrs := ih (fun x hx => h x (List.mem_cons_of_mem r hx))
      simp [collectInsights, hr, hrs]

/-- A malformed rule makes its own computation raise. -/
theorem ruleInsight_error_of_bad (p : List HoldingRow) (r : RuleRow)
    (hbad : r.target = none ∨ r.threshold = none) :
    ruleInsight p r = .error () := by
  unfold ruleInsight
  rcases hbad with hb | hb
  · rw [hb]
  · rw [hb]; cases r.target <;> rfl

/-- If some rule has a malformed numeric field, the whole collection
fails (the column arithmetic raises before the loop runs). -/
theorem collectInsights_error (p : List HoldingRow) (rules : List RuleRow)
    (h : ∃ r ∈ rules, r.target = none ∨ r.threshold = none) :
    collectInsights p rules = .error () := by
  induction rules with
  | nil => rcases h with ⟨r, hr, _⟩; cases hr
  | cons r rs ih =>
      rcases h with ⟨r', hr', hbad⟩
      rcases List.mem_cons.mp hr' with rfl | hmem
      · simp [collectInsights, ruleInsight_error_of_bad p r' hbad]
      · have htail := ih ⟨r', hmem, hbad⟩
        cases hr1 : ruleInsight p r with
        | error e => simp [collectInsights, hr1]
        | ok v => simp [collectInsights, hr1, htail]

/-! ## Claim theorems: Allocation Drift Detector (C2, C3, C4) -/

/-- C2, counterexample: the drift detector does NOT emit one insight per
rule into its returned insight list.  On the spec's own end-to-end
example extended with a within-threshold rule (Equity 70% vs 60±5,
Debt 30% vs 40±20), the returned list holds only the single ALERT —
the within-threshold rule contributes no OK insight (in
`src/run_agent.py` the `else` branch does not exist; in `src/app.py` it
renders the OK message but never appends it). -/
theorem drift_detector_omits_ok_from_returned_list :
    exRules.length = 2 ∧
    generate_rebalance_insights exPortfolio exRules
      = [.alert "Equity" (FVal.num 70) 60 5 (FVal.num 10) true] := by
  refine ⟨rfl, ?_⟩
  simp only [generate_rebalance_insights, collectInsights, ruleInsight,
    mergedPct, currentPctRaw, sumCategory, totalValue, exPortfolio, exRules,
    FVal.fsub, FVal.fabs, FVal.fgt, FVal.fdiv, FVal.fmul, FVal.fillnaZero,
    isAlertInsight, List.filter, List.foldl, List.any, List.isEmpty]
  norm_num
  simp only [reduceCtorEq, if_false, ite_false]
  norm_num [isAlertInsight, List.filter]

/-- C2, amended: for a non-empty Holdings table with positive total
value and a non-empty, well-formed AllocationRules table, the detector
DECIDES one insight per rule, in rule order — the sequence rendered to
the dashboard (`rebalanceShown`) pairs each rule with exactly the
spec-side insight (ALERT iff `|100·value/total − target| > threshold`,
naming category, current %, target %, threshold, drift magnitude, and
over/under direction; OK otherwise) — but the insight list RETURNED to
the aggregator keeps only the ALERT insights, in rule order. -/
theorem drift_detector_per_rule_decisions (p : List HoldingRow)
    (rules : List RuleRow) (hp : p ≠ []) (hr : rules ≠ [])
    (htot : 0 < totalValue p)
    (hwf : ∀ r ∈ rules, r.target.isSome ∧ r.threshold.isSome) :
    List.Forall₂ (fun (r : RuleRow) (ins : RuleInsight) =>
        ∀ t th, r.target = some t → r.threshold = some th →
          ins = specDriftInsight p r.category t th)
      rules (rebalanceShown p rules)
    ∧ generate_rebalance_insights p rules
        = (rebalanceShown p rules).filter isAlertInsight := by
  have hne : totalValue p ≠ 0 := ne_of_gt htot
  have hguard : (p.isEmpty || rules.isEmpty) = false := by
    simp [List.isEmpty_iff, hp, hr]
  have hok : ∀ r ∈ rules,
      ruleInsight p r
        = .ok (specDriftInsight p r.category (r.target.getD 0)
            (r.threshold.getD 0)) := by
    intro r hrr
    obtain ⟨ht, hth⟩ := hwf r hrr
    obtain ⟨t, ht'⟩ := Option.isSome_iff_exists.mp ht
    obtain ⟨th, hth'⟩ := Option.isSome_iff_exists.mp hth
    rw [ruleInsight_eq_spec p r t th ht' hth' hne, ht', hth']
    rfl
  have hcoll := collectInsights_ok p rules _ hok
  have hshown : rebalanceShown p rules
      = rules.map (fun r => specDriftInsight p r.category (r.target.getD 0)
          (r.threshold.getD 0)) := by
    unfold rebalanceShown
    rw [hguard]
    simp [hcoll]
  constructor
  · rw [hshown, List.forall₂_map_right_iff, List.forall₂_same]
    intro r hrr t th ht hth
    rw [ht, hth]
    rfl
  · unfold generate_rebalance_insights
    rw [hguard, hshown]
    simp [hcoll]

/-- C2, witness for the amended theorem, at the spec §8 example
portfolio (Equity 7000 / Debt 3000) with rules Equity 60±5 and
Debt 40±20. -/
theorem drift_detector_per_rule_decisions_witness :
    List.Forall₂ (fun (r : RuleRow) (ins : RuleInsight) =>
        ∀ t th, r.target = some t → r.threshold = some th →
          ins = specDriftInsight exPortfolio r.category t th)
      exRules (rebalanceShown exPortfolio exRules)
    ∧ generate_rebalance_insights exPortfolio exRules
        = (rebalanceShown exPortfolio exRules).filter isAlertInsight :=
  drift_detector_per_rule_decisions exPortfolio exRules (by decide)
    (by decide) (by norm_num [totalValue, exPortfolio, List.foldl])
    (by decide)

/-- C3, counterexample: a non-empty Holdings table whose total value is
zero does NOT yield an empty insight list.  The 0/0 percentage becomes
NaN, the merge's `fillna(0)` turns it into 0%, and the rule
(target 60, threshold 5) trips an ALERT ("60.0% under-allocated"). -/
theorem drift_zero_total_not_empty :
    zeroPortfolio ≠ [] ∧ totalValue zeroPortfolio = 0 ∧
    generate_rebalance_insights zeroPortfolio zeroRules
      = [.alert "Equity" (FVal.num 0) 60 5 (FVal.num 60) false] := by
  refine ⟨by decide, by norm_num [totalValue, zeroPortfolio, List.foldl], ?_⟩
  simp only [generate_rebalance_insights, collectInsights, ruleInsight,
    mergedPct, currentPctRaw, sumCategory, totalValue, zeroPortfolio,
    zeroRules, FVal.fsub, FVal.fabs, FVal.fgt, FVal.fdiv, FVal.fmul,
    FVal.fillnaZero, isAlertInsight, List.filter, List.foldl, List.any,
    List.isEmpty]
  norm_num
  try simp only [reduceCtorEq, if_false, ite_false]
  try norm_num [isAlertInsight, List.filter]

/-- C3, amended: the drift detector never raises; empty Holdings yields
an empty insight list.  For non-empty Holdings with nonnegative values
summing to zero, however, every category's merged percentage is NaN
filled to 0, and each well-formed rule still computes (without
exception) to an ALERT exactly when `|0 − target| > threshold`
(direction "under-allocated" for positive targets), so the returned
list is not empty in general. -/
theorem drift_zero_total_behavior (p : List HoldingRow)
    (rules : List RuleRow) (hpos : ∀ h ∈ p, 0 ≤ h.value)
    (htot : totalValue p = 0) :
    (∀ rs : List RuleRow, generate_rebalance_insights [] rs = []) ∧
    (∀ cat, mergedPct p cat = FVal.num 0) ∧
    (∀ r ∈ rules, ∀ t th, r.target = some t → r.threshold = some th →
       ruleInsight p r =
         .ok (if |(0:Rat) - t| > th
              then .alert r.category (FVal.num 0) t th (FVal.num |(0:Rat) - t|)
                     (decide ((0:Rat) - t > 0))
              else .ok r.category (FVal.num 0))) := by
  have hmerged : ∀ cat, mergedPct p cat = FVal.num 0 := by
    intro cat
    unfold mergedPct currentPctRaw
    by_cases hpres : p.any (fun h => h.category = cat)
    · simp only [hpres, if_true]
      rw [sumCategory_eq_zero_of_total_zero p hpos htot cat, htot]
      simp [FVal.fdiv, FVal.fmul, FVal.fillnaZero]
    · simp only [hpres, if_false, Bool.false_eq_true]
      simp [FVal.fillnaZero]
  refine ⟨fun rs => rfl, hmerged, ?_⟩
  intro r _ t th ht hth
  unfold ruleInsight
  rw [ht, hth, hmerged r.category]
  simp only [FVal.fsub, FVal.fabs, FVal.fgt, gt_iff_lt]
  split <;> rename_i hc
  · rw [if_pos (of_decide_eq_true hc)]
  · rw [if_neg (fun hp => hc (decide_eq_true hp))]

/-- C3, witness for the amended theorem: the single zero-value holding
with the 60±5 rule computes, without exception, to an ALERT at 0%
current allocation. -/
theorem drift_zero_total_behavior_witness :
    ruleInsight zeroPortfolio ⟨"Equity", some 60, some 5⟩
      = .ok (.alert "Equity" (FVal.num 0) 60 5 (FVal.num 60) false) := by
  have h := drift_zero_total_behavior zeroPortfolio zeroRules
    (by decide) (by norm_num [totalValue, zeroPortfolio, List.foldl])
  have h3 := h.2.2 ⟨"Equity", some 60, some 5⟩ (by decide) 60 5 rfl rfl
  rw [h3]
  norm_num

/-- C4, counterexample: an error in a single rule's computation DOES
abort the others.  With a malformed middle rule, the detector returns
the empty list — even the first rule's alert (which the same detector
produces when given that rule alone) is lost, because the single
`try/except` wraps the whole computation and returns `[]`. -/
theorem drift_malformed_rule_aborts_all :
    generate_rebalance_insights exPortfolio badRules = [] ∧
    generate_rebalance_insights exPortfolio [⟨"Equity", some 60, some 5⟩]
      = [.alert "Equity" (FVal.num 70) 60 5 (FVal.num 10) true] := by
  constructor
  · have hcoll := collectInsights_error exPortfolio badRules
      ⟨⟨"Debt", none, some 20⟩, by decide, Or.inl rfl⟩
    unfold generate_rebalance_insights
    rw [hcoll]
    rfl
  · simp only [generate_rebalance_insights, collectInsights, ruleInsight,
      mergedPct, currentPctRaw, sumCategory, totalValue, exPortfolio,
      FVal.fsub, FVal.fabs, FVal.fgt, FVal.fdiv, FVal.fmul, FVal.fillnaZero,
      isAlertInsight, List.filter, List.foldl, List.any, List.isEmpty]
    norm_num
    simp only [reduceCtorEq, if_false, ite_false]
    norm_num [isAlertInsight, List.filter]

/-- C4, amended: an error while computing any single rule's insight
(a malformed numeric field) aborts the processing of ALL rules: the
exception is caught once for the whole table, nothing is rendered, and
the returned insight list is empty — the remaining rules' insights are
not produced. -/
theorem drift_error_isolation_absent (p : List HoldingRow)
    (rules : List RuleRow)
    (hbad : ∃ r ∈ rules, r.target = none ∨ r.threshold = none) :
    generate_rebalance_insights p rules = []
    ∧ rebalanceShown p rules = [] := by
  have hcoll := collectInsights_error p rules hbad
  unfold generate_rebalance_insights rebalanceShown
  rw [hcoll]
  cases hpe : (p.isEmpty || rules.isEmpty) <;> simp

/-- C4, witness for the amended theorem at the concrete malformed rule
table. -/
theorem drift_error_isolation_absent_witness :
    generate_rebalance_insights exPortfolio badRules = []
    ∧ rebalanceShown exPortfolio badRules = [] :=
  drift_error_isolation_absent exPortfolio badRules
    ⟨⟨"Debt", none, some 20⟩, by decide, Or.inl rfl⟩

/-! ## Claim theorems: Performance Calculator (C5, C6, C10, C1) -/

/-- Searching a reversed list finds the last matching element of the
original list. -/
theorem find?_reverse_eq_getLast?_filter {α : Type _} (l : List α)
    (p : α → Bool) : l.reverse.find? p = (l.filter p).getLast? := by
  induction l with
  | nil => rfl
  | cons x xs ih =>
      rw [List.reverse_cons, List.find?_append, ih, List.filter_cons]
      cases hx : p x
      · simp [List.find?, hx]
      · simp only [List.find?, hx, if_true, List.getLast?_cons]
        cases hlast : (xs.filter p).getLast? <;> simp [hlast]

/-- The asset→ticker dict of `get_asset_performance` resolves a key to
the trimmed ticker of the LAST mapping row whose trimmed asset equals
the key (a Python dict built from pairs keeps the last binding). -/
theorem dictGet_tickerMap (tm : List TickerRow) (k : String) :
    dictGet (tm.map (fun r => (pyStrip r.asset, pyStrip r.ticker))) k
      = ((tm.filter (fun r => pyStrip r.asset = k)).getLast?).map
          (fun r => pyStrip r.ticker) := by
  unfold dictGet
  rw [← List.map_reverse, List.find?_map]
  rw [show ((fun (q : String × String) => (decide (q.1 = k) : Bool))
        ∘ (fun r : TickerRow => (pyStrip r.asset, pyStrip r.ticker)))
      = (fun r : TickerRow => (decide (pyStrip r.asset = k) : Bool)) from rfl]
  rw [find?_reverse_eq_getLast?_filter]
  cases h : (tm.filter (fun r => decide (pyStrip r.asset = k))).getLast? <;>
    simp [h]

/-- C5, counterexample: with two Ticker rows for the same asset string
(`A → T1` then `A → T2`), the performance calculator reports ticker
`T2` — the LAST row wins, not the first as claimed. -/
theorem ticker_duplicate_first_match_fails :
    (get_asset_performance dupPortfolio dupTickerMap
        (fun _ => [])).map (fun row => row.ticker) = ["T2"]
    ∧ ("T2" : String) ≠ "T1" := by
  constructor
  · simp only [get_asset_performance, dupPortfolio, dupTickerMap, uniqueList,
      uniqueAux, assetRow, dictGet, pyStrip, pyLower, List.isEmpty,
      List.map, List.reverse, List.find?]
    decide
  · decide

/-- C5, amended: when the TickerMap holds two or more rows whose trimmed
asset equals a key, the calculator's dict resolves that key to the
trimmed ticker of the chronologically LAST such row (last match wins),
by trimmed, case-preserved string equality. -/
theorem ticker_resolution_last_match (tm : List TickerRow) (k : String)
    (hdup : 2 ≤ (tm.filter (fun r => pyStrip r.asset = k)).length) :
    ∃ lastRow,
      (tm.filter (fun r => pyStrip r.asset = k)).getLast? = some lastRow ∧
      dictGet (tm.map (fun r => (pyStrip r.asset, pyStrip r.ticker))) k
        = some (pyStrip lastRow.ticker) := by
  have hne : tm.filter (fun r => pyStrip r.asset = k) ≠ [] := by
    intro hempty
    rw [hempty] at hdup
    simp at hdup
  obtain ⟨lastRow, hlast⟩ :=
    Option.isSome_iff_exists.mp (List.getLast?_isSome.mpr hne)
  refine ⟨lastRow, hlast, ?_⟩
  rw [dictGet_tickerMap, hlast]
  rfl

/-- C5, witness for the amended theorem at the duplicate map
(`A → T1`, `A → T2`): the dict resolves `A` to `T2`. -/
theorem ticker_resolution_last_match_witness :
    ∃ lastRow,
      (dupTickerMap.filter (fun r => pyStrip r.asset = "A")).getLast?
        = some lastRow ∧
      dictGet (dupTickerMap.map (fun r => (pyStrip r.asset, pyStrip r.ticker)))
          "A" = some (pyStrip lastRow.ticker) :=
  ticker_resolution_last_match dupTickerMap "A" (by decide)

/-- C10: an empty TickerMap table makes `get_asset_performance` return
the empty table before visiting any asset — no rows at all, whatever
the Holdings contain. -/
theorem perf_empty_ticker_map_empty_table
    (portfolio : List HoldingRow) (provider : String → List PricePoint) :
    get_asset_performance portfolio [] provider = [] := rfl

/-- C6: when the resolved ticker's 1-year series has fewer than 2
points, the asset's performance row keeps the resolved ticker but all
six percentage columns stay at their `NA` defaults. -/
theorem perf_insufficient_history_all_na (atk : List (String × String))
    (provider : String → List PricePoint) (asset ticker : String)
    (hres : dictGet atk (pyStrip asset) = some ticker)
    (hne : ticker ≠ "") (hnan : pyLower ticker ≠ "nan")
    (hshort : (provider ticker).length < 2) :
    assetRow atk provider asset =
      { asset := asset, ticker := ticker, d1 := none, w1 := none,
        m1 := none, m3 := none, m6 := none, y1 := none } := by
  unfold assetRow
  dsimp only
  rw [hres]
  simp only [if_pos (And.intro hne (And.intro hnan hne)), if_neg hne]
  rcases hp : provider ticker with _ | ⟨a, rest⟩
  · simp
  · rcases rest with _ | ⟨b, rest'⟩
    · simp
    · rw [hp] at hshort
      simp at hshort
      omega

/-- C6, witness: a single-point series yields the resolved ticker and
six `NA` columns. -/
theorem perf_insufficient_history_all_na_witness :
    assetRow [("Fund", "FUND")] onePointProvider "Fund" =
      { asset := "Fund", ticker := "FUND", d1 := none, w1 := none,
        m1 := none, m3 := none, m6 := none, y1 := none } :=
  perf_insufficient_history_all_na [("Fund", "FUND")] onePointProvider
    "Fund" "FUND" (by decide) (by decide) (by decide) (by decide)

/-- In a strictly date-sorted list, every member's date is at most the
last member's date. -/
theorem pairwise_date_le_getLast (l : List PricePoint)
    (hp : l.Pairwise (fun a b => a.date < b.date)) (x : PricePoint)
    (hx : x ∈ l) (y : PricePoint) (hy : l.getLast? = some y) :
    x.date ≤ y.date := by
  induction l with
  | nil => cases hx
  | cons a t ih =>
      cases t with
      | nil =>
          rcases List.mem_singleton.mp hx with rfl
          cases hy
          exact le_refl _
      | cons b t' =>
          have hy' : (b :: t').getLast? = some y := by
            rw [← hy]; rfl
          rcases List.mem_cons.mp hx with rfl | hmem
          · have hylt : x.date < y.date := by
              have : y ∈ b :: t' := List.mem_of_mem_getLast? hy'
              exact (List.pairwise_cons.mp hp).1 y this
            exact le_of_lt hylt
          · exact ih (List.pairwise_cons.mp hp).2 hmem hy'

/-- In a strictly date-sorted list, dates identify points. -/
theorem pairwise_date_inj (l : List PricePoint)
    (hp : l.Pairwise (fun a b => a.date < b.date)) (x y : PricePoint)
    (hx : x ∈ l) (hy : y ∈ l) (hd : x.date = y.date) : x = y := by
  induction l with
  | nil => cases hx
  | cons a t ih =>
      obtain ⟨hhead, htail⟩ := List.pairwise_cons.mp hp
      rcases List.mem_cons.mp hx with rfl | hxm
      · rcases List.mem_cons.mp hy with rfl | hym
        · rfl
        · exact absurd hd (ne_of_lt (hhead y hym))
      · rcases List.mem_cons.mp hy with rfl | hym
        · exact absurd hd.symm (ne_of_lt (hhead x hxm))
        · exact ih htail hxm hym

/-- The full characterisation of one lookback column over a strictly
date-sorted history: the column is `NA` exactly when no point lies at
or before the target date, and otherwise its reference point is the
chronologically latest point at or before the target. -/
theorem lookbackCol_spec (hist : List PricePoint) (cd : Int) (cp : Rat)
    (d : Int) (hp : hist.Pairwise (fun a b => a.date < b.date)) :
    (lookbackCol hist cd cp d = none ↔
       ∀ q ∈ hist, ¬(q.date ≤ cd - d)) ∧
    (∀ q ∈ hist, q.date ≤ cd - d →
       ∃ ref ∈ hist, ref.date ≤ cd - d ∧
         (∀ r ∈ hist, r.date ≤ cd - d → r.date ≤ ref.date) ∧
         lookbackCol hist cd cp d
           = some (100 * (cp - ref.close) / ref.close)) := by
  constructor
  · unfold lookbackCol
    cases hlast : (hist.filter (fun p => p.date ≤ cd - d)).getLast? with
    | none =>
        simp only [hlast]
        rw [List.getLast?_eq_none_iff] at hlast
        rw [List.filter_eq_nil_iff] at hlast
        simp only [decide_eq_true_eq] at hlast
        simpa using hlast
    | some refp =>
        simp only [hlast]
        constructor
        · intro h; cases h
        · intro hnone
          have : refp ∈ hist.filter (fun p => p.date ≤ cd - d) :=
            List.mem_of_mem_getLast? hlast
          obtain ⟨hmem, hcond⟩ := List.mem_filter.mp this
          exact absurd (of_decide_eq_true hcond) (hnone refp hmem)
  · intro q hq hqd
    have hqpast : q ∈ hist.filter (fun p => p.date ≤ cd - d) :=
      List.mem_filter.mpr ⟨hq, decide_eq_true hqd⟩
    have hpastne : hist.filter (fun p => p.date ≤ cd - d) ≠ [] := by
      intro hempty; rw [hempty] at hqpast; cases hqpast
    obtain ⟨refp, hlast⟩ :=
      Option.isSome_iff_exists.mp (List.getLast?_isSome.mpr hpastne)
    have hrefmem : refp ∈ hist.filter (fun p => p.date ≤ cd - d) :=
      List.mem_of_mem_getLast? hlast
    obtain ⟨hrefhist, hrefcond⟩ := List.mem_filter.mp hrefmem
    refine ⟨refp, hrefhist, of_decide_eq_true hrefcond, ?_, ?_⟩
    · intro r hr hrd
      have hrpast : r ∈ hist.filter (fun p => p.date ≤ cd - d) :=
        List.mem_filter.mpr ⟨hr, decide_eq_true hrd⟩
      exact pairwise_date_le_getLast _
        (hp.filter (fun p => decide (p.date ≤ cd - d))) r hrpast refp hlast
    · unfold lookbackCol
      simp only [hlast]
      congr 1
      ring

/-- C1: for an asset whose ticker resolves and whose 1-year series has
at least 2 strictly date-sorted points, each lookback column of the
performance row is the date-indexed lookup `lookbackCol` anchored at
the last point's date and close; for every lookback offset `d`, that
column is `NA` exactly when no point lies at or before
`current_date − d`, and otherwise equals
`100 * (current_price − reference_price) / reference_price` where the
reference is the chronologically latest point at or before the target
date; and whenever a point sits exactly 7 days before the last point
(the previous Monday of a Mon–Fri series ending on a Monday), the
1-week column uses that point's close — not `NA`. -/
theorem perf_lookback_reference_correct
    (atk : List (String × String)) (provider : String → List PricePoint)
    (asset ticker : String) (lastP : PricePoint)
    (hres : dictGet atk (pyStrip asset) = some ticker)
    (hne : ticker ≠ "") (hnan : pyLower ticker ≠ "nan")
    (hlen : 2 ≤ (provider ticker).length)
    (hsort : (provider ticker).Pairwise (fun a b => a.date < b.date))
    (hlast : (provider ticker).getLast? = some lastP) :
    ((assetRow atk provider asset).w1
        = lookbackCol (provider ticker) lastP.date lastP.close 7
      ∧ (assetRow atk provider asset).m1
        = lookbackCol (provider ticker) lastP.date lastP.close 30
      ∧ (assetRow atk provider asset).m3
        = lookbackCol (provider ticker) lastP.date lastP.close 90
      ∧ (assetRow atk provider asset).m6
        = lookbackCol (provider ticker) lastP.date lastP.close 180
      ∧ (assetRow atk provider asset).y1
        = lookbackCol (provider ticker) lastP.date lastP.close 365)
    ∧ (∀ d : Int,
        (lookbackCol (provider ticker) lastP.date lastP.close d = none ↔
           ∀ q ∈ provider ticker, ¬(q.date ≤ lastP.date - d))
        ∧ (∀ q ∈ provider ticker, q.date ≤ lastP.date - d →
           ∃ ref ∈ provider ticker, ref.date ≤ lastP.date - d ∧
             (∀ r ∈ provider ticker, r.date ≤ lastP.date - d →
                r.date ≤ ref.date) ∧
             lookbackCol (provider ticker) lastP.date lastP.close d
               = some (100 * (lastP.close - ref.close) / ref.close)))
    ∧ (∀ pm ∈ provider ticker, pm.date = lastP.date - 7 →
         lookbackCol (provider ticker) lastP.date lastP.close 7
           = some (100 * (lastP.close - pm.close) / pm.close)) := by
  have hspec := fun d => lookbackCol_spec (provider ticker)
    lastP.date lastP.close d hsort
  refine ⟨?_, hspec, ?_⟩
  · rcases hr : (provider ticker).reverse with _ | ⟨a, _ | ⟨b, t⟩⟩
    · have : (provider ticker).length = 0 := by
        rw [← List.length_reverse, hr]; rfl
      omega
    · have : (provider ticker).length = 1 := by
        rw [← List.length_reverse, hr]; rfl
      omega
    · have ha : a = lastP := by
        have h1 : (provider ticker).getLast? = some a := by
          rw [List.getLast?_eq_head?_reverse, hr]; rfl
        rw [h1] at hlast
        exact Option.some.inj hlast
      subst ha
      unfold assetRow
      dsimp only
      rw [hres]
      simp only [if_pos (And.intro hne (And.intro hnan hne)), hr]
      exact ⟨trivial, trivial, trivial, trivial, trivial⟩
  · intro pm hpm hpmdate
    obtain ⟨ref, hrefmem, hrefle, hrefmax, hrefeq⟩ :=
      (hspec 7).2 pm hpm (le_of_eq hpmdate)
    have hdates : ref.date = pm.date := by
      have h1 : ref.date ≤ pm.date := hpmdate ▸ hrefle
      have h2 : pm.date ≤ ref.date := hrefmax pm hpm (le_of_eq hpmdate)
      exact le_antisymm h1 h2
    have : ref = pm :=
      pairwise_date_inj (provider ticker) hsort ref pm hrefmem hpm hdates
    rw [hrefeq, this]

/-- C1, witness: on the Mon–Fri series ending on a Monday (day 7), the
1-week column resolves to the previous Monday's close (day 0, close
10), giving `(20 − 10)/10 · 100 = +100%`, not `NA`. -/
theorem perf_lookback_reference_correct_witness :
    (assetRow [("Fund", "FUND")] mondayProvider "Fund").w1 = some 100 := by
  have h := perf_lookback_reference_correct [("Fund", "FUND")]
    mondayProvider "Fund" "FUND" ⟨7, 20⟩ (by decide) (by decide)
    (by decide) (by decide) (by decide) (by decide)
  have hmon := h.2.2 ⟨0, 10⟩ (by decide) (by decide)
  rw [h.1.1, hmon]
  norm_num

/-! ## Claim theorems: Market Dip Scout (C7, C8) -/

/-- `filterMap` over a field that is `some v` at every row yields the
constant list of the `v`s. -/
theorem filterMap_all_some (f : DipPoint → Option Rat)
    (data : List DipPoint) (v : Rat) (h : ∀ p ∈ data, f p = some v) :
    data.filterMap f = data.map (fun _ => v) := by
  induction data with
  | nil => rfl
  | cons p ps ih =>
      rw [List.filterMap_cons, h p (List.mem_cons_self p ps), List.map_cons,
        ih (fun q hq => h q (List.mem_cons_of_mem p hq))]

/-- Every member of a rational list is at most its `max?`. -/
theorem le_of_mem_max? (l : List Rat) (a : Rat) (h : l.max? = some a)
    (b : Rat) (hb : b ∈ l) : b ≤ a := by
  have hanti : Std.Antisymm fun (x1 x2 : Rat) => x1 ≤ x2 :=
    ⟨by intro x y h1 h2; exact le_antisymm h1 h2⟩
  have hiff := @List.max?_eq_some_iff Rat a _ _ hanti le_refl
    (fun x y => max_choice x y) (fun x y z => max_le_iff) l
  exact (hiff.mp h).2 b hb

/-- A nonempty list all of whose members are `v` has `max? = some v`
and `getLast? = some v`. -/
theorem max?_getLast?_const (l : List Rat) (v : Rat) (hne : l ≠ [])
    (hall : ∀ x ∈ l, x = v) : l.max? = some v ∧ l.getLast? = some v := by
  constructor
  · have hsome : l.max?.isSome := by
      cases hm : l.max? with
      | none => exact absurd (List.max?_eq_none_iff.mp hm) hne
      | some m => rfl
    obtain ⟨m, hm⟩ := Option.isSome_iff_exists.mp hsome
    have : m ∈ l := List.max?_mem (fun x y => max_choice x y) hm
    rw [hm, hall m this]
  · obtain ⟨m, hm⟩ :=
      Option.isSome_iff_exists.mp (List.getLast?_isSome.mpr hne)
    have : m ∈ l := List.mem_of_mem_getLast? hm
    rw [hm, hall m this]

/-- C7, counterexample: on a flat series with `dip_threshold_percent`
equal to 0, the scout still takes the OK branch (the test is the
strict `abs(percent) > threshold`, and `0 > 0` is false) — the claim's
"does not emit OK when the threshold is 0" is wrong. -/
theorem dip_flat_zero_threshold_emits_ok :
    dipOutcome ⟨"X", "Asset X", 0⟩ flatSeries = .ok "Asset X" (FVal.num 0) := by
  simp only [dipOutcome, flatSeries, percentFromHigh, FVal.fsub, FVal.fdiv,
    FVal.fmul, FVal.fabs, FVal.fgt, List.filterMap, List.max?, List.getLast?,
    List.isEmpty, List.foldl, max_self]
  norm_num

/-- C7, amended: for a non-empty flat price series (`high == close`
with one common nonzero value `v` at every point), `percent_from_high`
is 0 and — for every nonnegative threshold, the value 0 included — the
scout emits the OK outcome (the strict `>` never fires on 0). -/
theorem dip_flat_series_ok (row : WatchRow) (data : List DipPoint)
    (v : Rat) (hne : data ≠ [])
    (hflat : ∀ p ∈ data, p.high = some v ∧ p.close = some v)
    (hv : v ≠ 0) (hth : 0 ≤ row.threshold) :
    percentFromHigh v v = FVal.num 0 ∧
    dipOutcome row data = .ok row.assetName (FVal.num 0) := by
  have hpct : percentFromHigh v v = FVal.num 0 := by
    simp [percentFromHigh, FVal.fsub, FVal.fdiv, FVal.fmul, hv, sub_self]
  refine ⟨hpct, ?_⟩
  have hhigh : data.filterMap (fun p => p.high) = data.map (fun _ => v) :=
    filterMap_all_some _ data v (fun p hp => (hflat p hp).1)
  have hclose : data.filterMap (fun p => p.close) = data.map (fun _ => v) :=
    filterMap_all_some _ data v (fun p hp => (hflat p hp).2)
  have hmapne : data.map (fun _ => v) ≠ [] := by
    intro hmap
    exact hne (List.map_eq_nil_iff.mp hmap)
  obtain ⟨hmax, hlast⟩ := max?_getLast?_const (data.map (fun _ => v)) v
    hmapne (fun x hx => ((List.mem_map.mp hx).choose_spec.2).symm)
  unfold dipOutcome
  rw [if_neg (by simp [List.isEmpty_iff, hne])]
  dsimp only
  rw [hhigh, hclose, hmax, hlast]
  dsimp only
  rw [hpct]
  simp [FVal.fabs, FVal.fgt, not_lt.mpr hth]

/-- C7, witness for the amended theorem: the flat two-point series at
value 100 with threshold 10 yields `percent_from_high = 0` and the OK
outcome. -/
theorem dip_flat_series_ok_witness :
    percentFromHigh 100 100 = FVal.num 0 ∧
    dipOutcome ⟨"X", "Asset X", 10⟩ flatSeries = .ok "Asset X" (FVal.num 0) :=
  dip_flat_series_ok ⟨"X", "Asset X", 10⟩ flatSeries 100 (by decide)
    (by intro p hp
        rcases List.mem_cons.mp hp with rfl | hp'
        · exact ⟨rfl, rfl⟩
        · rcases List.mem_singleton.mp hp' with rfl
          exact ⟨rfl, rfl⟩)
    (by norm_num) (by norm_num)

/-- C8, counterexample: `high ≥ close` at every point does NOT make
`percent_from_high ≤ 0`.  On the one-point series with high −10 and
close −20 (high ≥ close holds), dividing by the negative 52-week high
flips the sign: `percent_from_high = +100`, and the scout even reports
it as an OPPORTUNITY "100% below its high". -/
theorem dip_percent_positive_despite_high_ge_close :
    ((-20 : Rat) ≤ -10) ∧
    percentFromHigh (-20) (-10) = FVal.num 100 ∧ ¬((100 : Rat) ≤ 0) ∧
    dipOutcome ⟨"X", "Asset X", 5⟩ negSeries
      = .opportunity "Asset X" "X" (FVal.num 100) (-20) (-10) 5 := by
  refine ⟨by norm_num, ?_, by norm_num, ?_⟩
  · simp only [percentFromHigh, FVal.fsub, FVal.fdiv, FVal.fmul]
    norm_num
  · simp only [dipOutcome, negSeries, percentFromHigh, FVal.fsub, FVal.fdiv,
      FVal.fmul, FVal.fabs, FVal.fgt, List.filterMap, List.max?,
      List.getLast?, List.isEmpty, List.foldl]
    norm_num

/-- C8, amended: for a non-empty series with non-missing highs and
closes, `high ≥ close` pointwise, and — the amendment the
counterexample forces — at least one positive recorded high, the
scout's `percent_from_high` is a finite rational ≤ 0: the 52-week high
dominates the last close and the division by the positive high keeps
the sign. -/
theorem dip_percent_from_high_nonpositive (data : List DipPoint)
    (hne : data ≠ [])
    (hall : ∀ p ∈ data, ∃ hv cv, p.high = some hv ∧ p.close = some cv ∧
      cv ≤ hv)
    (hpos : ∃ p ∈ data, ∃ hv, p.high = some hv ∧ 0 < hv) :
    ∃ high52 current q,
      (data.filterMap (fun p => p.high)).max? = some high52 ∧
      (data.filterMap (fun p => p.close)).getLast? = some current ∧
      percentFromHigh current high52 = FVal.num q ∧ q ≤ 0 := by
  obtain ⟨p0, hp0⟩ := List.exists_mem_of_ne_nil data hne
  obtain ⟨hv0, cv0, hh0, hc0, _⟩ := hall p0 hp0
  have hhighne : data.filterMap (fun p => p.high) ≠ [] :=
    List.ne_nil_of_mem (List.mem_filterMap.mpr ⟨p0, hp0, hh0⟩)
  have hclosene : data.filterMap (fun p => p.close) ≠ [] :=
    List.ne_nil_of_mem (List.mem_filterMap.mpr ⟨p0, hp0, hc0⟩)
  have hmaxsome : (data.filterMap (fun p => p.high)).max?.isSome := by
    cases hm : (data.filterMap (fun p => p.high)).max? with
    | none => exact absurd (List.max?_eq_none_iff.mp hm) hhighne
    | some m => rfl
  obtain ⟨high52, hmax⟩ := Option.isSome_iff_exists.mp hmaxsome
  obtain ⟨current, hlast⟩ :=
    Option.isSome_iff_exists.mp (List.getLast?_isSome.mpr hclosene)
  have hpos52 : 0 < high52 := by
    obtain ⟨pp, hpp, hvv, hhvv, hvpos⟩ := hpos
    have : hvv ∈ data.filterMap (fun p => p.high) :=
      List.mem_filterMap.mpr ⟨pp, hpp, hhvv⟩
    exact lt_of_lt_of_le hvpos
      (le_of_mem_max? _ high52 hmax hvv this)
  have hcur_le : current ≤ high52 := by
    have hcurmem : current ∈ data.filterMap (fun p => p.close) :=
      List.mem_of_mem_getLast? hlast
    obtain ⟨pc, hpc, hpcc⟩ := List.mem_filterMap.mp hcurmem
    obtain ⟨hvc, cvc, hhc, hcc, hlec⟩ := hall pc hpc
    have hcv : cvc = current := by
      rw [hpcc] at hcc
      exact (Option.some.inj hcc).symm
    have : hvc ∈ data.filterMap (fun p => p.high) :=
      List.mem_filterMap.mpr ⟨pc, hpc, hhc⟩
    calc current = cvc := hcv.symm
      _ ≤ hvc := hlec
      _ ≤ high52 := le_of_mem_max? _ high52 hmax hvc this
  refine ⟨high52, current, (current - high52) / high52 * 100,
    hmax, hlast, ?_, ?_⟩
  · simp [percentFromHigh, FVal.fsub, FVal.fdiv, FVal.fmul,
      ne_of_gt hpos52]
  · have h1 : (current - high52) / high52 ≤ 0 :=
      div_nonpos_of_nonpos_of_nonneg (by linarith) (le_of_lt hpos52)
    exact mul_nonpos_of_nonpos_of_nonneg h1 (by norm_num)

/-- C8, witness for the amended theorem: one point with high 100 and
close 85 gives `percent_from_high = −15 ≤ 0`. -/
theorem dip_percent_from_high_nonpositive_witness :
    ∃ high52 current q,
      (([⟨some 100, some 85⟩] : List DipPoint).filterMap
          (fun p => p.high)).max? = some high52 ∧
      (([⟨some 100, some 85⟩] : List DipPoint).filterMap
          (fun p => p.close)).getLast? = some current ∧
      percentFromHigh current high52 = FVal.num q ∧ q ≤ 0 :=
  dip_percent_from_high_nonpositive [⟨some 100, some 85⟩] (by decide)
    (by rintro p hp
        rcases List.mem_singleton.mp hp with rfl
        exact ⟨100, 85, rfl, rfl, by norm_num⟩)
    ⟨⟨some 100, some 85⟩, by decide, 100, rfl, by norm_num⟩

/-! ## Claim theorems: Insight Aggregator (C9) -/

/-- Occurrence-in-order survives prepending text. -/
theorem occursInOrderIn_prepend (ls : List String) (s p : String)
    (h : occursInOrderIn ls s) : occursInOrderIn ls (p ++ s) := by
  cases ls with
  | nil => trivial
  | cons l ls' =>
      obtain ⟨pre, post, hs, hrest⟩ := h
      exact ⟨p ++ pre, post,
        by rw [hs, ← String.append_assoc, ← String.append_assoc], hrest⟩

/-- Occurrence-in-order survives appending text. -/
theorem occursInOrderIn_extend (ls : List String) (s q : String)
    (h : occursInOrderIn ls s) : occursInOrderIn ls (s ++ q) := by
  induction ls generalizing s with
  | nil => trivial
  | cons l ls' ih =>
      obtain ⟨pre, post, hs, hrest⟩ := h
      exact ⟨pre, post ++ q,
        by rw [hs, String.append_assoc], ih post hrest⟩

/-- The lines of a list occur, in order, inside their `"\n"`-join. -/
theorem occursInOrderIn_joinLines (ls : List String) :
    occursInOrderIn ls (joinLines ls) := by
  induction ls with
  | nil => trivial
  | cons x ls' ih =>
      cases ls' with
      | nil =>
          exact ⟨"", "", by simp [joinLines], trivial⟩
      | cons y ls'' =>
          refine ⟨"", "\n" ++ joinLines (y :: ls''), ?_, ?_⟩
          · rw [String.empty_append]
            show x ++ "\n" ++ joinLines (y :: ls'')
              = x ++ ("\n" ++ joinLines (y :: ls''))
            rw [String.append_assoc]
          · exact occursInOrderIn_prepend (y :: ls'') _ "\n" ih

/-- Occurrences in two texts concatenate. -/
theorem occursInOrderIn_append (xs ys : List String) (s t : String)
    (hx : occursInOrderIn xs s) (hy : occursInOrderIn ys t) :
    occursInOrderIn (xs ++ ys) (s ++ t) := by
  induction xs generalizing s with
  | nil => exact occursInOrderIn_prepend ys t s hy
  | cons x xs' ih =>
      obtain ⟨pre, post, hs, hrest⟩ := hx
      exact ⟨pre, post ++ t,
        by rw [hs, String.append_assoc], ih post hrest⟩

/-- C9: when all three insight lists are empty the aggregator returns
the sentinel "no insights" message whatever the summarization
collaborator would answer (it is not consulted); otherwise it hands
the summarizer `insightsText`, in which the rebalance lines occur
first, the market lines second and the sentiment lines third, each
list's internal order preserved, and returns the summarizer's reply
verbatim. -/
theorem aggregator_sentinel_and_order :
    (∀ summarize : String → String,
       get_llm_summary summarize [] [] [] = sentinelNoInsights) ∧
    (∀ (summarize : String → String) (r m n : List String),
       ¬(r = [] ∧ m = [] ∧ n = []) →
       get_llm_summary summarize r m n = summarize (insightsText r m n) ∧
       occursInOrderIn (r ++ m ++ n) (insightsText r m n)) := by
  constructor
  · intro _; rfl
  · intro f r m n h
    constructor
    · unfold get_llm_summary
      rw [if_neg]
      simp only [Bool.and_eq_true, List.isEmpty_iff]
      exact fun hc => h ⟨hc.1.1, hc.1.2, hc.2⟩
    · have hr : occursInOrderIn r ("Internal Portfolio Alerts:\n"
          ++ joinLines r) :=
        occursInOrderIn_prepend r _ _ (occursInOrderIn_joinLines r)
      have hm : occursInOrderIn m ("\n\nExternal Market Opportunities:\n"
          ++ joinLines m) :=
        occursInOrderIn_prepend m _ _ (occursInOrderIn_joinLines m)
      have hn : occursInOrderIn n ("\n\nRecent News Sentiment:\n"
          ++ joinLines n) :=
        occursInOrderIn_prepend n _ _ (occursInOrderIn_joinLines n)
      have hcat := occursInOrderIn_append (r ++ m) n _ _
        (occursInOrderIn_append r m _ _ hr hm) hn
      have heq : ("Internal Portfolio Alerts:\n" ++ joinLines r
            ++ ("\n\nExternal Market Opportunities:\n" ++ joinLines m))
            ++ ("\n\nRecent News Sentiment:\n" ++ joinLines n)
          = insightsText r m n := by
        unfold insightsText
        simp only [String.append_assoc]
      rw [← heq]
      exact hcat

/-- C9, witness: with one rebalance line and empty market/sentiment
lists, the aggregator calls the summarizer on `insightsText` and the
lines occur in order. -/
theorem aggregator_sentinel_and_order_witness :
    get_llm_summary (fun s => s) ["alert line"] [] []
      = insightsText ["alert line"] [] [] ∧
    occursInOrderIn (["alert line"] ++ [] ++ [])
      (insightsText ["alert line"] [] []) :=
  aggregator_sentinel_and_order.2 (fun s => s) ["alert line"] [] []
    (by simp)
